import Mathlib

/-!
Verification of the DVB SI text-decoding routines of `dvbdescriptors.cpp`:
`decode_iso6937`, `dvb_decode_text`, `decode_text` and
`dvb_decode_short_name`, shallowly embedded over `List Nat` byte buffers.

Conventions of the embedding:
* A C byte buffer plus explicit length becomes a `List Nat` (each element a
  byte value `< 256`; where C performs arithmetic whose result is stored in a
  16-bit `QChar`, the embedding reduces modulo `65536`).
* The two ISO 6937 lookup tables live in `iso6937tables.h`, outside the
  translated unit; the embedding takes them as parameters
  `base : Nat → Nat` and `secondary : Nat → Nat → Nat` (value `0xFFFF` is the
  sentinel, exactly as in the C code).
* The external codecs (`QTextCodec`, `QString::fromUtf8`,
  `QString::fromLocal8Bit`, `freesat_huffman_to_string`) are collaborators:
  the embedding records which decoder the code selected and which byte slice
  it handed over, as a constructor of `DecodedText`.
* A read past the end of the buffer (or an unsigned-underflowing length
  passed onward) is modelled by the result `none : Option DecodedText`.
-/

namespace DvbText

/-- The outcome of a decode: which external decoder was selected and the
byte slice (or already-converted code-point list) handed to it. -/
inductive DecodedText where
  | empty : DecodedText
  | freesatHuffman : List Nat → DecodedText
  | ucs2 : List Nat → DecodedText
  | iso6937 : List Nat → DecodedText
  | iso8859 : Nat → List Nat → DecodedText
  | local8Bit : List Nat → DecodedText
  | utf8 : List Nat → DecodedText
deriving DecidableEq

/-- The value computed into `ch` by one iteration of the `decode_iso6937`
loop body, before the emit-or-continue test: if the pending state `ch` is the
sentinel `0xFFFF`, look up `secondary[prev][b]`, falling back to `base[b]` on
a secondary miss; otherwise look up `base[b]`. -/
def iso6937_next (base : Nat → Nat) (secondary : Nat → Nat → Nat)
    (prev ch b : Nat) : Nat :=
  if ch = 0xFFFF then
    let s := secondary prev b
    if s = 0xFFFF then base b else s
  else base b

/-- The `for` loop of `decode_iso6937`: `prev` is the previous byte
(`buf[i-1]`), `ch` the value left in `ch` by the previous iteration.
Iteration stops at the end of the buffer or at a zero byte
(`(i < length) && buf[i]`); an iteration whose computed `ch` is the sentinel
emits nothing (`continue`), otherwise it appends `QChar(ch)`. -/
def iso6937_loop (base : Nat → Nat) (secondary : Nat → Nat → Nat)
    (prev ch : Nat) : List Nat → List Nat
  | [] => []
  | b :: rest =>
    if b = 0 then []
    else
      let ch2 := iso6937_next base secondary prev ch b
      if ch2 = 0xFFFF then iso6937_loop base secondary b ch2 rest
      else ch2 :: iso6937_loop base secondary b ch2 rest

/-- `decode_iso6937`: ISO/IEC 6937 to UCS-2, composed two-table decoding.
`ch` starts at `0x20` (not the sentinel), so `prev` is never consulted on the
first iteration; its initial value is arbitrary (the C code would read
`buf[-1]` only if `ch` started as the sentinel, which it does not). -/
def decode_iso6937 (base : Nat → Nat) (secondary : Nat → Nat → Nat)
    (buf : List Nat) : List Nat :=
  iso6937_loop base secondary 0 0x20 buf

/-- One step of the control-stripping loop body shared by `dvb_decode_text`
and the emphasis scan of `dvb_decode_short_name`: a byte outside
`[0x80, 0x9F]` is copied, `0x8A` becomes a space `0x20`, every other byte in
the range is dropped. -/
def strip_byte (b : Nat) : List Nat :=
  if b < 0x80 ∨ 0x9F < b then [b]
  else if b = 0x8A then [0x20]
  else []

/-- The control-stripping `for` loop of `dvb_decode_text` over the raw
field. -/
def strip_control : List Nat → List Nat
  | [] => []
  | b :: rest => strip_byte b ++ strip_control rest

/-- The scratch buffer `dst` built by `dvb_decode_text`: the override bytes
are copied in front iff an override is supplied (non-null) and
`src[0] >= 0x20`, then the control-stripped field bytes follow. -/
def dvb_scratch (ov : Option (List Nat)) (src : List Nat) : List Nat :=
  (match ov, src with
   | some o, b :: _ => if 0x20 ≤ b then o else []
   | _, _ => []) ++ strip_control src

/-- The UCS-2 loop of the `src[0] == 0x11` branch: `(raw_length - 1) / 2`
code units, unit `i` being `(src[1+2i] << 8) + src[2+2i]` stored into a
16-bit `QChar`; a dangling odd trailing byte is ignored. -/
def ucs2_units : List Nat → List Nat
  | hi :: lo :: rest => ((hi <<< 8) + lo) % 65536 :: ucs2_units rest
  | _ => []

/-- `decode_text`: the codepage selector. It reads `buf[0]` unconditionally,
and in the `0x10` branch reads `buf[1]` and `buf[2]` and passes `length - 3`
onward with no length check; an out-of-bounds read (equivalently, an
unsigned-underflowing length) is modelled as `none`. -/
def decode_text (base : Nat → Nat) (secondary : Nat → Nat → Nat)
    (buf : List Nat) : Option DecodedText :=
  match buf with
  | [] => none
  | b :: rest =>
    if 0x20 ≤ b then
      some (.iso6937 (decode_iso6937 base secondary (b :: rest)))
    else if 0x01 ≤ b ∧ b ≤ 0x0B then
      some (.iso8859 (4 + b) rest)
    else if b = 0x10 then
      match rest with
      | b1 :: b2 :: rest2 =>
        let code := b1 <<< 8 ||| b2
        if code ≤ 15 then some (.iso8859 code rest2)
        else some (.local8Bit rest2)
      | _ => none
    else if b = 0x15 then
      some (.utf8 rest)
    else
      some (.local8Bit rest)

/-- `dvb_decode_text`: the public entry point (ETSI EN 300 468 Annex A).
The override is `none` for a null `encoding_override` pointer. -/
def dvb_decode_text (base : Nat → Nat) (secondary : Nat → Nat → Nat)
    (src : List Nat) (ov : Option (List Nat)) : Option DecodedText :=
  match src with
  | [] => some .empty
  | b :: rest =>
    if b = 0x1F then some (.freesatHuffman (b :: rest))
    else if b = 0x11 then some (.ucs2 (ucs2_units rest))
    else if (0x11 < b ∧ b < 0x15) ∨ (0x15 < b ∧ b < 0x1F) then some .empty
    else
      let dst := dvb_scratch ov (b :: rest)
      if dst.length = 0 then some .empty
      else decode_text base secondary dst

/-- The inner `while ((++i < raw_length) && (src[i] != 0x87))` loop of the
emphasis scan of `dvb_decode_short_name`, started on the bytes after a
`0x86`: returns the stripped bytes captured inside the emphasis span and the
bytes remaining after the closing `0x87` (the outer `i++` skips the `0x87`
itself). -/
def capture_inner : List Nat → List Nat × List Nat
  | [] => ([], [])
  | b :: rest =>
    if b = 0x87 then ([], rest)
    else
      let p := capture_inner rest
      (strip_byte b ++ p.1, p.2)

/-- The remainder returned by `capture_inner` is no longer than its input. -/
theorem capture_inner_snd_le (l : List Nat) :
    (capture_inner l).2.length ≤ l.length := by
  induction l with
  | nil => simp [capture_inner]
  | cons b rest ih =>
    by_cases hb : b = 0x87
    · simp only [capture_inner, hb, if_true, List.length_cons]
      omega
    · simp only [capture_inner, hb, if_false, List.length_cons]
      omega

/-- The outer `for` loop of the emphasis scan of `dvb_decode_short_name`:
bytes outside a `0x86 .. 0x87` span are not copied; on a `0x86`, the inner
loop captures (and strips) the span. -/
def short_name_capture : List Nat → List Nat
  | [] => []
  | b :: rest =>
    if b = 0x86 then
      (capture_inner rest).1 ++ short_name_capture (capture_inner rest).2
    else
      short_name_capture rest
termination_by l => l.length
decreasing_by
  · have := capture_inner_snd_le rest
    simp only [List.length_cons]
    omega
  · simp only [List.length_cons]
    omega

/-- `dvb_decode_short_name`. Note that after the `raw_length > 50` check the
C code reads `src[0]` in the unsupported-range test with no length guard;
the embedding models that read by `src[0]?`, yielding `none` (out-of-bounds
access) on an empty buffer. The fallback call passes no override
(`dvb_decode_text(src, raw_length)` uses the declaration's null default). -/
def dvb_decode_short_name (base : Nat → Nat) (secondary : Nat → Nat → Nat)
    (src : List Nat) : Option DecodedText :=
  if src.length > 50 then some .empty
  else
    match src[0]? with
    | none => none
    | some b =>
      if (0x10 < b ∧ b < 0x15) ∨ (0x15 < b ∧ b < 0x20) then some .empty
      else
        let dst := short_name_capture src
        if dst.length = 0 then dvb_decode_text base secondary src none
        else decode_text base secondary dst

/-- Number of iterations executed by the `decode_iso6937` loop: one per byte
up to the end of the buffer or the first zero byte, independent of the
tables (every iteration advances `i` by exactly one). -/
def iso6937_steps : List Nat → Nat
  | [] => 0
  | b :: rest => if b = 0 then 0 else 1 + iso6937_steps rest

/-- Number of iterations executed by the inner emphasis-capture loop
(each one advances the shared index `i` by exactly one, including the final
step that lands on the closing `0x87`). -/
def inner_steps : List Nat → Nat
  | [] => 0
  | b :: rest => if b = 0x87 then 1 else 1 + inner_steps rest

/-- Total number of index advances performed by the emphasis scan of
`dvb_decode_short_name` (outer `i++` steps plus inner `++i` steps). -/
def sn_steps : List Nat → Nat
  | [] => 0
  | b :: rest =>
    if b = 0x86 then 1 + inner_steps rest + sn_steps (capture_inner rest).2
    else 1 + sn_steps rest
termination_by l => l.length
decreasing_by
  · have := capture_inner_snd_le rest
    simp only [List.length_cons]
    omega
  · simp only [List.length_cons]
    omega

/-- A small concrete instantiation of the ISO 6937 base table, used to
evaluate the parameterised definitions on concrete inputs: byte `0xC1`
(grave accent) is the two-byte sentinel, every other byte maps to itself. -/
def tblBase (b : Nat) : Nat :=
  if b = 0xC1 then 0xFFFF else b

/-- A matching concrete secondary table: grave accent composes with `a`
(`0xC1`, `0x61` ↦ `0xE0`); every other pair is a miss. -/
def tblSec (p b : Nat) : Nat :=
  if p = 0xC1 ∧ b = 0x61 then 0xE0 else 0xFFFF

/-- Claim C1: the composed legacy codec conforms to the two-table state
machine: with no pending sentinel, a byte with a non-sentinel base entry
emits exactly that code point (for every secondary table, which is not
consulted); a byte with a sentinel base entry emits nothing and defers; with
the sentinel pending, a secondary hit emits the composed code point, a
secondary miss falls through to the base entry of the second byte, emitting
it if non-sentinel and deferring again otherwise; a trailing deferring byte
emits nothing; a zero byte stops iteration. -/
theorem C1_iso6937_state_machine (base : Nat → Nat)
    (secondary : Nat → Nat → Nat) (prev ch b : Nat) (rest : List Nat)
    (hb : b ≠ 0) :
    (ch ≠ 0xFFFF → base b ≠ 0xFFFF → ∀ sec2 : Nat → Nat → Nat,
      iso6937_loop base sec2 prev ch (b :: rest)
        = base b :: iso6937_loop base sec2 b (base b) rest)
    ∧ (ch ≠ 0xFFFF → base b = 0xFFFF →
      iso6937_loop base secondary prev ch (b :: rest)
        = iso6937_loop base secondary b 0xFFFF rest)
    ∧ (secondary prev b ≠ 0xFFFF →
      iso6937_loop base secondary prev 0xFFFF (b :: rest)
        = secondary prev b
            :: iso6937_loop base secondary b (secondary prev b) rest)
    ∧ (secondary prev b = 0xFFFF → base b ≠ 0xFFFF →
      iso6937_loop base secondary prev 0xFFFF (b :: rest)
        = base b :: iso6937_loop base secondary b (base b) rest)
    ∧ (secondary prev b = 0xFFFF → base b = 0xFFFF →
      iso6937_loop base secondary prev 0xFFFF (b :: rest)
        = iso6937_loop base secondary b 0xFFFF rest)
    ∧ (ch ≠ 0xFFFF → base b = 0xFFFF →
      iso6937_loop base secondary prev ch [b] = [])
    ∧ iso6937_loop base secondary prev ch (0 :: rest) = []
    ∧ decode_iso6937 base secondary (b :: rest)
        = iso6937_loop base secondary 0 0x20 (b :: rest) := by
  refine ⟨?_, ?_, ?_, ?_, ?_, ?_, ?_, rfl⟩ <;> intros <;>
    simp_all [iso6937_loop, iso6937_next]

/-- Witness for C1: plain letter, composed pair, secondary-miss fallthrough
and trailing accent, on the sample tables. -/
theorem C1_iso6937_state_machine_witness :
    (iso6937_loop tblBase tblSec 0 0x20 [0x41]
      = tblBase 0x41 :: iso6937_loop tblBase tblSec 0x41 (tblBase 0x41) [])
    ∧ (iso6937_loop tblBase tblSec 0xC1 0xFFFF [0x61]
      = tblSec 0xC1 0x61
          :: iso6937_loop tblBase tblSec 0x61 (tblSec 0xC1 0x61) [])
    ∧ (iso6937_loop tblBase tblSec 0xC1 0xFFFF [0x62]
      = tblBase 0x62 :: iso6937_loop tblBase tblSec 0x62 (tblBase 0x62) [])
    ∧ iso6937_loop tblBase tblSec 0 0x20 [0xC1] = [] :=
  ⟨(C1_iso6937_state_machine tblBase tblSec 0 0x20 0x41 [] (by decide)).1
      (by decide) (by decide) tblSec,
   (C1_iso6937_state_machine tblBase tblSec 0xC1 0xFFFF 0x61 []
      (by decide)).2.2.1 (by decide),
   (C1_iso6937_state_machine tblBase tblSec 0xC1 0xFFFF 0x62 []
      (by decide)).2.2.2.1 (by decide) (by decide),
   (C1_iso6937_state_machine tblBase tblSec 0 0x20 0xC1 []
      (by decide)).2.2.2.2.2.1 (by decide) (by decide)⟩

/-- Claim C2: the control-stripping pass copies a byte outside
`[0x80, 0x9F]` unchanged, drops every byte in that range except `0x8A`,
replaces `0x8A` by a single `0x20`, and on `[0x41, 0x8A, 0x85, 0x42]`
produces `[0x41, 0x20, 0x42]`. -/
theorem C2_control_stripping (b : Nat) (l : List Nat) :
    (b < 0x80 ∨ 0x9F < b → strip_byte b = [b])
    ∧ (0x80 ≤ b → b ≤ 0x9F → b ≠ 0x8A → strip_byte b = [])
    ∧ strip_byte 0x8A = [0x20]
    ∧ strip_control (b :: l) = strip_byte b ++ strip_control l
    ∧ strip_control [0x41, 0x8A, 0x85, 0x42] = [0x41, 0x20, 0x42] := by
  refine ⟨fun h => ?_, fun h1 h2 h3 => ?_, by decide, rfl, by decide⟩
  · rw [strip_byte, if_pos h]
  · have h4 : ¬(b < 0x80 ∨ 0x9F < b) := by omega
    rw [strip_byte, if_neg h4, if_neg h3]

/-- Witness for C2: a pass-through byte and a dropped control byte. -/
theorem C2_control_stripping_witness :
    strip_byte 0x41 = [0x41] ∧ strip_byte 0x85 = [] :=
  ⟨(C2_control_stripping 0x41 []).1 (by decide),
   (C2_control_stripping 0x85 []).2.1 (by decide) (by decide) (by decide)⟩

/-- Claim C3: on first byte `0x10`, `buf[1] << 8 | buf[2]` is the big-endian
16-bit value of the next two bytes; if it is at most 15 the remaining bytes
(from offset 3) go to regional code page table entry `code`, otherwise they
fall back to the platform default local 8-bit decoding — a fallback, not an
error or empty result. -/
theorem C3_explicit_codepage (base : Nat → Nat) (secondary : Nat → Nat → Nat)
    (b1 b2 : Nat) (rest : List Nat) (_h1 : b1 < 256) (h2 : b2 < 256) :
    (b1 <<< 8 ||| b2) = 256 * b1 + b2
    ∧ (256 * b1 + b2 ≤ 15 →
        decode_text base secondary (0x10 :: b1 :: b2 :: rest)
          = some (.iso8859 (256 * b1 + b2) rest))
    ∧ (15 < 256 * b1 + b2 →
        decode_text base secondary (0x10 :: b1 :: b2 :: rest)
          = some (.local8Bit rest)) := by
  have key : (b1 <<< 8 ||| b2) = 256 * b1 + b2 := by
    rw [Nat.shiftLeft_eq, Nat.mul_comm, ← Nat.mul_add_lt_is_or h2 b1]
  refine ⟨key, fun hle => ?_, fun hgt => ?_⟩
  · simp only [decode_text, key]
    norm_num [hle]
  · simp only [decode_text, key]
    norm_num [hgt, Nat.not_le.2 hgt]

/-- Witness for C3: explicit code page 1 and an out-of-range code 32. -/
theorem C3_explicit_codepage_witness :
    decode_text tblBase tblSec [0x10, 0x00, 0x01, 0x41]
      = some (.iso8859 (256 * 0x00 + 0x01) [0x41])
    ∧ decode_text tblBase tblSec [0x10, 0x00, 0x20, 0x41]
      = some (.local8Bit [0x41]) :=
  ⟨(C3_explicit_codepage tblBase tblSec 0x00 0x01 [0x41]
      (by decide) (by decide)).2.1 (by decide),
   (C3_explicit_codepage tblBase tblSec 0x00 0x20 [0x41]
      (by decide) (by decide)).2.2 (by decide)⟩

/-- Claim C4 is refuted by the code (code bug): the `0x10` branch of
`decode_text` reads `buf[1]` and `buf[2]` and computes `length - 3` with no
length guard, although non-emptiness is the only precondition its callers
establish. On the stripped buffer `[0x10]` of length 1 — reachable from
`dvb_decode_text` on the raw field `[0x10]` with no override — it reads two
bytes past the end of the buffer and underflows the unsigned `length - 3`;
the embedding marks the unsafe access as `none`. -/
theorem C4_decode_text_0x10_unguarded :
    decode_text tblBase tblSec [0x10] = none
    ∧ decode_text tblBase tblSec [0x10, 0x00] = none
    ∧ dvb_decode_text tblBase tblSec [0x10] none = none := by
  refine ⟨by decide, by decide, by decide⟩

/-- An index that resolves in a list is below its length. -/
theorem getElem?_some_lt {l : List Nat} {n a : Nat} (h : l[n]? = some a) :
    n < l.length := by
  by_contra hn
  rw [List.getElem?_eq_none (by omega)] at h
  exact Option.noConfusion h

/-- The UCS-2 loop produces `(raw_length - 1) / 2` code units: one per full
pair of tail bytes, the dangling odd byte ignored. -/
theorem ucs2_units_length : ∀ l : List Nat,
    (ucs2_units l).length = l.length / 2
  | [] => by simp [ucs2_units]
  | [_] => by simp [ucs2_units]
  | _ :: _ :: rest => by
    simp only [ucs2_units, List.length_cons, ucs2_units_length rest]
    omega

/-- Code unit `i` of the UCS-2 loop is built big-endian from elements `2i`
and `2i+1` of the tail. -/
theorem ucs2_units_get : ∀ (l : List Nat) (i hi lo : Nat),
    l[2 * i]? = some hi → l[2 * i + 1]? = some lo →
    (ucs2_units l)[i]? = some (((hi <<< 8) + lo) % 65536)
  | [], i, hi, lo, h1, _h2 => by
    have := getElem?_some_lt h1
    simp at this
  | [_], i, hi, lo, h1, h2 => by
    have := getElem?_some_lt h2
    simp at this
  | a :: b :: rest, 0, hi, lo, h1, h2 => by
    rw [show 2 * 0 = 0 from rfl, List.getElem?_cons_zero] at h1
    rw [show 2 * 0 + 1 = 0 + 1 from rfl, List.getElem?_cons_succ,
      List.getElem?_cons_zero] at h2
    injection h1 with h1
    injection h2 with h2
    subst h1
    subst h2
    simp [ucs2_units]
  | a :: b :: rest, i + 1, hi, lo, h1, h2 => by
    have e1 : 2 * (i + 1) = 2 * i + 1 + 1 := by omega
    have e2 : 2 * (i + 1) + 1 = 2 * i + 1 + 1 + 1 := by omega
    rw [e1, List.getElem?_cons_succ, List.getElem?_cons_succ] at h1
    rw [e2, List.getElem?_cons_succ, List.getElem?_cons_succ] at h2
    simp only [ucs2_units, List.getElem?_cons_succ]
    exact ucs2_units_get rest i hi lo h1 h2

/-- Claim C5: on first byte `0x11`, `dvb_decode_text` returns exactly
`(length - 1) / 2` UCS-2 code units, unit `i` being the big-endian 16-bit
value of bytes `1 + 2i` and `2 + 2i` of the raw field, with any dangling odd
trailing byte ignored and no control-stripping applied; for raw length 5,
exactly 2 code units are decoded from bytes 1 through 4. -/
theorem C5_ucs2_direct (base : Nat → Nat) (secondary : Nat → Nat → Nat)
    (ov : Option (List Nat)) (rest : List Nat) :
    dvb_decode_text base secondary (0x11 :: rest) ov
      = some (.ucs2 (ucs2_units rest))
    ∧ (ucs2_units rest).length = rest.length / 2
    ∧ (∀ i hi lo, rest[2 * i]? = some hi → rest[2 * i + 1]? = some lo →
        (ucs2_units rest)[i]? = some (((hi <<< 8) + lo) % 65536))
    ∧ (∀ a b c d : Nat, dvb_decode_text base secondary [0x11, a, b, c, d] ov
        = some (.ucs2 [((a <<< 8) + b) % 65536, ((c <<< 8) + d) % 65536])) := by
  refine ⟨?_, ucs2_units_length rest, ucs2_units_get rest, fun a b c d => ?_⟩
  · simp [dvb_decode_text]
  · simp [dvb_decode_text, ucs2_units]

/-- Witness for C5: a concrete UCS-2 field whose tail contains control bytes
(passed through un-stripped), and a concrete code-unit extraction. -/
theorem C5_ucs2_direct_witness :
    dvb_decode_text tblBase tblSec [0x11, 0x8A, 0x85] none
      = some (.ucs2 (ucs2_units [0x8A, 0x85]))
    ∧ (ucs2_units [0x00, 0x41, 0xFF, 0xFE])[1]?
      = some (((0xFF <<< 8) + 0xFE) % 65536) :=
  ⟨(C5_ucs2_direct tblBase tblSec none [0x8A, 0x85]).1,
   (C5_ucs2_direct tblBase tblSec none [0x00, 0x41, 0xFF, 0xFE]).2.2.1
      1 0xFF 0xFE (by decide) (by decide)⟩

/-- Claim C6: a non-empty input whose first byte lies strictly between
`0x11` and `0x15` or strictly between `0x15` and `0x1F` makes
`dvb_decode_text` return the empty result (no partial decode); an input of
length at most 50 whose first byte lies strictly between `0x10` and `0x15`
or strictly between `0x15` and `0x20` makes `dvb_decode_short_name` return
the empty result. -/
theorem C6_multibyte_rejected (base : Nat → Nat)
    (secondary : Nat → Nat → Nat) (ov : Option (List Nat)) (b : Nat)
    (rest : List Nat) :
    ((0x11 < b ∧ b < 0x15) ∨ (0x15 < b ∧ b < 0x1F) →
      dvb_decode_text base secondary (b :: rest) ov = some .empty)
    ∧ ((b :: rest).length ≤ 50 →
      (0x10 < b ∧ b < 0x15) ∨ (0x15 < b ∧ b < 0x20) →
      dvb_decode_short_name base secondary (b :: rest) = some .empty) := by
  constructor
  · intro h
    have h1 : b ≠ 0x1F := by omega
    have h2 : b ≠ 0x11 := by omega
    simp [dvb_decode_text, h1, h2, h]
  · intro hlen h
    have h50 : ¬((b :: rest).length > 50) := by omega
    simp [dvb_decode_short_name, h50, h]

/-- Witness for C6: first byte `0x13` is rejected by both entry points. -/
theorem C6_multibyte_rejected_witness :
    dvb_decode_text tblBase tblSec [0x13, 0x41] none = some .empty
    ∧ dvb_decode_short_name tblBase tblSec [0x13, 0x41] = some .empty :=
  ⟨(C6_multibyte_rejected tblBase tblSec none 0x13 [0x41]).1 (by decide),
   (C6_multibyte_rejected tblBase tblSec none 0x13 [0x41]).2
      (by decide) (by decide)⟩

/-- Claim C7: with a non-null override and a field whose first byte is at
least `0x20`, the scratch buffer is the whole override byte sequence
followed by the stripped field bytes; with a first byte below `0x20`, or
with no override, no override bytes are prepended; with override
`[0x10, 0x00, 0x01]` and a field starting with `0x41` the scratch buffer
begins with those three bytes. -/
theorem C7_override_splicing (ov : List Nat) (b : Nat) (rest : List Nat) :
    (0x20 ≤ b →
      dvb_scratch (some ov) (b :: rest) = ov ++ strip_control (b :: rest))
    ∧ (b < 0x20 →
      dvb_scratch (some ov) (b :: rest) = strip_control (b :: rest))
    ∧ dvb_scratch none (b :: rest) = strip_control (b :: rest)
    ∧ dvb_scratch (some [0x10, 0x00, 0x01]) (0x41 :: rest)
        = 0x10 :: 0x00 :: 0x01 :: strip_control (0x41 :: rest) := by
  refine ⟨fun h => ?_, fun h => ?_, ?_, ?_⟩
  · unfold dvb_scratch
    simp [h]
  · unfold dvb_scratch
    simp [Nat.not_le.2 h]
  · rfl
  · unfold dvb_scratch
    simp

/-- Witness for C7: a prepended override, and a field selecting its own
codepage (first byte `0x10`) where no override bytes are prepended. -/
theorem C7_override_splicing_witness :
    dvb_scratch (some [0x01, 0x02]) [0x41]
      = [0x01, 0x02] ++ strip_control [0x41]
    ∧ dvb_scratch (some [0x01, 0x02]) [0x10] = strip_control [0x10] :=
  ⟨(C7_override_splicing [0x01, 0x02] 0x41 []).1 (by decide),
   (C7_override_splicing [0x01, 0x02] 0x10 []).2.1 (by decide)⟩

/-- `decode_text` never produces the empty result: every branch hands a
byte slice to a concrete decoder (or performs an unsafe access). -/
theorem decode_text_ne_empty (base : Nat → Nat)
    (secondary : Nat → Nat → Nat) (buf : List Nat) :
    decode_text base secondary buf ≠ some .empty := by
  rcases buf with _ | ⟨b, rest⟩
  · simp [decode_text]
  · simp only [decode_text]
    split_ifs <;> try simp
    rcases rest with _ | ⟨b1, rest1⟩
    · simp
    rcases rest1 with _ | ⟨b2, rest2⟩
    · simp
    simp only []
    split_ifs <;> simp

/-- Claim C8: `dvb_decode_text` returns the empty result without invoking
the codepage selector (and hence with no lookup-table access) on raw length
zero, and likewise whenever control-stripping plus override splicing
produce zero output bytes; `decode_text` itself can never produce the empty
result, so the empty result always comes from these short-circuits. -/
theorem C8_empty_short_circuit (base : Nat → Nat)
    (secondary : Nat → Nat → Nat) (ov : Option (List Nat)) :
    dvb_decode_text base secondary [] ov = some .empty
    ∧ (∀ b rest, dvb_scratch ov (b :: rest) = [] →
        dvb_decode_text base secondary (b :: rest) ov = some .empty)
    ∧ (∀ buf, decode_text base secondary buf ≠ some .empty) := by
  refine ⟨by simp [dvb_decode_text], fun b rest hdst => ?_,
    decode_text_ne_empty base secondary⟩
  have hstrip : strip_control (b :: rest) = [] := by
    unfold dvb_scratch at hdst
    exact (List.append_eq_nil.1 hdst).2
  have hb : strip_byte b = [] := by
    rw [strip_control] at hstrip
    exact (List.append_eq_nil.1 hstrip).1
  have hrange : ¬(b < 0x80 ∨ 0x9F < b) := by
    intro h
    rw [strip_byte, if_pos h] at hb
    exact List.noConfusion hb
  have h1 : b ≠ 0x1F := by omega
  have h2 : b ≠ 0x11 := by omega
  have h3 : ¬((0x11 < b ∧ b < 0x15) ∨ (0x15 < b ∧ b < 0x1F)) := by omega
  simp [dvb_decode_text, h1, h2, h3, hdst]

/-- Witness for C8: the raw field `[0x85]` (a single dropped control byte,
no override) strips to nothing and short-circuits to the empty result. -/
theorem C8_empty_short_circuit_witness :
    dvb_decode_text tblBase tblSec [0x85] none = some .empty :=
  (C8_empty_short_circuit tblBase tblSec none).2.1 0x85 [] (by decide)

/-- Claim C9 is refuted by the code (code bug): after the `> 50` length
check, `dvb_decode_short_name` reads `src[0]` in its unsupported-range test
with no zero-length guard, so a call with length 0 does access `src[0]`
(out of bounds, marked `none` in the embedding) — unlike `dvb_decode_text`,
whose `!raw_length` guard returns the empty result first. -/
theorem C9_short_name_reads_first_byte :
    dvb_decode_short_name tblBase tblSec [] = none
    ∧ dvb_decode_text tblBase tblSec [] none = some .empty := by
  refine ⟨by decide, by decide⟩

/-- Each iteration of the `decode_iso6937` loop consumes exactly one byte,
so its iteration count is independent of the tables and of the pending
state, and is bounded by the buffer length. -/
theorem iso6937_steps_le (l : List Nat) : iso6937_steps l ≤ l.length := by
  induction l with
  | nil => simp [iso6937_steps]
  | cons b rest ih =>
    by_cases hb : b = 0
    · simp [iso6937_steps, hb]
    · simp only [iso6937_steps, hb, if_false, List.length_cons]
      omega

/-- The loop emits at most one code point per iteration. -/
theorem iso6937_loop_length_le (base : Nat → Nat)
    (secondary : Nat → Nat → Nat) :
    ∀ (prev ch : Nat) (l : List Nat),
    (iso6937_loop base secondary prev ch l).length ≤ iso6937_steps l
  | _, _, [] => by simp [iso6937_loop, iso6937_steps]
  | prev, ch, b :: rest => by
    by_cases hb : b = 0
    · simp [iso6937_loop, iso6937_steps, hb]
    · have ih := iso6937_loop_length_le base secondary b
        (iso6937_next base secondary prev ch b) rest
      simp only [iso6937_loop, iso6937_steps, hb, if_false]
      split_ifs
      · omega
      · simp only [List.length_cons]
        omega

/-- The inner emphasis loop advances the shared index on every step: its
step count plus the length of the remainder it hands back to the outer loop
never exceeds the span it scanned. -/
theorem inner_steps_capture_le (l : List Nat) :
    inner_steps l + (capture_inner l).2.length ≤ l.length := by
  induction l with
  | nil => simp [inner_steps, capture_inner]
  | cons b rest ih =>
    by_cases hb : b = 0x87
    · simp only [inner_steps, capture_inner, hb, if_true, List.length_cons]
      omega
    · simp only [inner_steps, capture_inner, hb, if_false, List.length_cons]
      omega

/-- The emphasis scan of `dvb_decode_short_name` performs at most one index
advance per input byte, outer and inner steps combined. -/
theorem sn_steps_le : ∀ l : List Nat, sn_steps l ≤ l.length
  | [] => by simp [sn_steps]
  | b :: rest => by
    by_cases hb : b = 0x86
    · have h1 := inner_steps_capture_le rest
      have h2 := sn_steps_le (capture_inner rest).2
      simp only [sn_steps, hb, if_true, List.length_cons]
      omega
    · have h2 := sn_steps_le rest
      simp only [sn_steps, hb, if_false, List.length_cons]
      omega
termination_by l => l.length
decreasing_by
  · have := capture_inner_snd_le rest
    simp only [List.length_cons]
    omega
  · simp only [List.length_cons]
    omega

/-- Claim C10: every decode loop terminates within a number of iterations
bounded by the input length; one iteration of the composed codec consumes
exactly one byte — also in the reprocess-second-byte-as-first-byte branch,
where the recursive call continues on the tail with the current byte as the
new previous byte — and the emphasis scan advances its index on every inner
and outer step. -/
theorem C10_iterations_bounded (base : Nat → Nat)
    (secondary : Nat → Nat → Nat) (prev ch b : Nat) (rest l : List Nat)
    (hb : b ≠ 0) :
    iso6937_steps l ≤ l.length
    ∧ sn_steps l ≤ l.length
    ∧ inner_steps l + (capture_inner l).2.length ≤ l.length
    ∧ (iso6937_loop base secondary prev ch l).length ≤ iso6937_steps l
    ∧ iso6937_loop base secondary prev ch (b :: rest)
        = (let c := iso6937_next base secondary prev ch b
           if c = 0xFFFF then iso6937_loop base secondary b c rest
           else c :: iso6937_loop base secondary b c rest) := by
  refine ⟨iso6937_steps_le l, sn_steps_le l, inner_steps_capture_le l,
    iso6937_loop_length_le base secondary prev ch l, ?_⟩
  simp [iso6937_loop, hb]

/-- Witness for C10, at a two-byte composed pair on the sample tables. -/
theorem C10_iterations_bounded_witness :
    iso6937_steps [0xC1, 0x61] ≤ ([0xC1, 0x61] : List Nat).length
    ∧ iso6937_loop tblBase tblSec 0 0x20 [0xC1, 0x61]
        = (let c := iso6937_next tblBase tblSec 0 0x20 0xC1
           if c = 0xFFFF then iso6937_loop tblBase tblSec 0xC1 c [0x61]
           else c :: iso6937_loop tblBase tblSec 0xC1 c [0x61]) :=
  ⟨(C10_iterations_bounded tblBase tblSec 0 0x20 0xC1 [0x61] [0xC1, 0x61]
      (by decide)).1,
   (C10_iterations_bounded tblBase tblSec 0 0x20 0xC1 [0x61] [0xC1, 0x61]
      (by decide)).2.2.2.2⟩

end DvbText
